import Mathlib

/-
  Verification of the geometric and state-machine core of the
  placeReflection repository (placeReflection.py and quickZoom.py).

  The Maya-facing plumbing (dragger-context registration, optionVars,
  in-view messages) is out of scope; the mathematical core and the
  gesture state machines are embedded faithfully below.

  Conventions of the embedding:
  * Maya float scalars are modelled as real numbers for the reflection
    tool (which uses square roots) and as rationals for the quick-zoom
    tool (which only uses field operations).
  * Screen-space drag coordinates delivered by the dragger context are
    whole pixel values; the source converts them with Python int(),
    so they are modelled as integers.
  * Maya MVector: `a * b` on two vectors is the dot product, `a ^ b`
    the cross product, `normalize` divides by the Euclidean length
    (and maps the zero vector to itself, as the model's division by
    zero does).
  * Writes to camera attributes (cmds.setAttr) are modelled as an
    explicit list of write events so that statements about "no camera
    attribute is written" are direct.
-/

/-- The modifier key reported by the dragger context. -/
inductive Modifier where
  | none
  | shift
  | ctrl
deriving DecidableEq, Repr

namespace PlaceReflection

/-- A 3d vector with real components (om2.MVector / om2.MPoint). -/
@[ext]
structure Vec3 where
  x : ℝ
  y : ℝ
  z : ℝ

namespace Vec3

def add (a b : Vec3) : Vec3 := ⟨a.x + b.x, a.y + b.y, a.z + b.z⟩

def sub (a b : Vec3) : Vec3 := ⟨a.x - b.x, a.y - b.y, a.z - b.z⟩

def neg (a : Vec3) : Vec3 := ⟨-a.x, -a.y, -a.z⟩

def smul (t : ℝ) (a : Vec3) : Vec3 := ⟨t * a.x, t * a.y, t * a.z⟩

/-- Dot product (MVector multiplication of two vectors). -/
def dot (a b : Vec3) : ℝ := a.x * b.x + a.y * b.y + a.z * b.z

/-- Cross product (MVector `^` operator). -/
def cross (a b : Vec3) : Vec3 :=
  ⟨a.y * b.z - a.z * b.y, a.z * b.x - a.x * b.z, a.x * b.y - a.y * b.x⟩

/-- Euclidean length of a vector. -/
noncomputable def norm (a : Vec3) : ℝ := Real.sqrt (dot a a)

/-- MVector.normalize: divide by the Euclidean length.  For the zero
vector the model returns the zero vector (division by zero is zero),
matching Maya's behaviour of leaving a zero vector unchanged. -/
noncomputable def normalize (a : Vec3) : Vec3 := smul (norm a)⁻¹ a

end Vec3

open Vec3

/-- PlaceReflection._reflectionVector: `doublePerp = 2.0 * viewVector *
faceNormal` (a scalar, since the second `*` is a dot product) and the
result `viewVector - (doublePerp * faceNormal)`. -/
def reflectionVector (viewVector faceNormal : Vec3) : Vec3 :=
  let doublePerp : ℝ := dot (smul 2 viewVector) faceNormal
  sub viewVector (smul doublePerp faceNormal)

/-- C1: for every view direction V and surface normal N, the reflection
vector computed in place mode equals `V - 2*(V . N)*N` where `.` is the
Euclidean dot product. -/
theorem reflectionVector_eq_mirror_formula (v n : Vec3) :
    reflectionVector v n = sub v (smul (2 * dot v n) n) := by
  simp only [reflectionVector, dot, smul, sub, Vec3.mk.injEq]
  refine ⟨by ring, by ring, by ring⟩

/-- The world up vector used by _quatFromVector. -/
def worldUp : Vec3 := ⟨0, 1, 0⟩

/-- The three rows of the rotation matrix assembled by _quatFromVector
(the 4x4 MMatrix it builds is block; only the 3x3 rotation rows carry
information, the quaternion is extracted from them by Maya). -/
structure Mat3 where
  xRot : Vec3
  yRot : Vec3
  zRot : Vec3

/-- Determinant of the matrix with rows xRot, yRot, zRot, written as the
scalar triple product. -/
def det3 (m : Mat3) : ℝ := dot m.xRot (cross m.yRot m.zRot)

/-- PlaceReflection._quatFromVector, up to the final (Maya-internal)
matrix-to-quaternion extraction: the three rows placed into the MMatrix,
as a function of the vector, the configured axis and the invert flag.
The double negation in the invert branches of the source is kept as
written. -/
noncomputable def quatBasis (vector : Vec3) (axis : ℕ) (invert : Bool) : Mat3 :=
  let cross1 := normalize (cross vector worldUp)
  let cross2 := normalize (cross vector cross1)
  if axis = 0 then
    { xRot := if invert then neg (neg vector) else neg vector
      yRot := neg cross2
      zRot := cross1 }
  else if axis = 1 then
    { xRot := neg cross2
      yRot := if invert then neg (neg vector) else neg vector
      zRot := cross1 }
  else
    { xRot := if invert then neg cross1 else cross1
      yRot := neg cross2
      zRot := if invert then neg vector else vector }

/-- The rows of a matrix are an orthonormal frame. -/
def orthonormalRows (m : Mat3) : Prop :=
  dot m.xRot m.xRot = 1 ∧ dot m.yRot m.yRot = 1 ∧ dot m.zRot m.zRot = 1 ∧
  dot m.xRot m.yRot = 0 ∧ dot m.xRot m.zRot = 0 ∧ dot m.yRot m.zRot = 0

/-- A row frame is right-handed when its determinant is +1 (for
orthonormal rows the determinant is +1 or -1). -/
def rightHanded (m : Mat3) : Prop := det3 m = 1

namespace Vec3

theorem dot_comm (a b : Vec3) : dot a b = dot b a := by
  simp only [dot]; ring

theorem dot_cross_self_left (a b : Vec3) : dot a (cross a b) = 0 := by
  simp only [dot, cross]; ring

theorem dot_cross_self_right (a b : Vec3) : dot b (cross a b) = 0 := by
  simp only [dot, cross]; ring

theorem dot_smul_left (t : ℝ) (a b : Vec3) : dot (smul t a) b = t * dot a b := by
  simp only [dot, smul]; ring

theorem dot_smul_right (t : ℝ) (a b : Vec3) : dot a (smul t b) = t * dot a b := by
  simp only [dot, smul]; ring

theorem dot_neg_left (a b : Vec3) : dot (neg a) b = -dot a b := by
  simp only [dot, neg]; ring

theorem dot_neg_right (a b : Vec3) : dot a (neg b) = -dot a b := by
  simp only [dot, neg]; ring

theorem neg_neg_self (a : Vec3) : neg (neg a) = a := by
  simp only [neg]; ext <;> ring

theorem cross_lagrange (a b : Vec3) :
    dot (cross a b) (cross a b) = dot a a * dot b b - (dot a b) ^ 2 := by
  simp only [dot, cross]; ring

theorem dot_self_nonneg (a : Vec3) : 0 ≤ dot a a := by
  simp only [dot]
  nlinarith [mul_self_nonneg a.x, mul_self_nonneg a.y, mul_self_nonneg a.z]

theorem eq_zero_of_dot_self_eq_zero {a : Vec3} (h : dot a a = 0) :
    a = ⟨0, 0, 0⟩ := by
  simp only [dot] at h
  have hx : a.x * a.x = 0 := by nlinarith [mul_self_nonneg a.y, mul_self_nonneg a.z]
  have hy : a.y * a.y = 0 := by nlinarith [mul_self_nonneg a.x, mul_self_nonneg a.z]
  have hz : a.z * a.z = 0 := by nlinarith [mul_self_nonneg a.x, mul_self_nonneg a.y]
  ext
  · exact mul_self_eq_zero.mp hx
  · exact mul_self_eq_zero.mp hy
  · exact mul_self_eq_zero.mp hz

theorem normalize_dot_self {a : Vec3} (h : dot a a ≠ 0) :
    dot (normalize a) (normalize a) = 1 := by
  have hnn := dot_self_nonneg a
  simp only [normalize, norm, dot_smul_left, dot_smul_right]
  rw [show (Real.sqrt (dot a a))⁻¹ * ((Real.sqrt (dot a a))⁻¹ * dot a a)
        = (Real.sqrt (dot a a) * Real.sqrt (dot a a))⁻¹ * dot a a by ring,
      Real.mul_self_sqrt hnn]
  exact inv_mul_cancel₀ h

theorem normalize_of_unit {a : Vec3} (h : dot a a = 1) : normalize a = a := by
  simp only [normalize, norm, h, Real.sqrt_one, inv_one, smul]
  ext <;> ring

theorem normalize_dot_left (a b : Vec3) :
    dot (normalize a) b = (norm a)⁻¹ * dot a b := dot_smul_left _ a b

end Vec3

theorem det3_neg_fst (a b c : Vec3) : det3 ⟨neg a, b, c⟩ = -det3 ⟨a, b, c⟩ := by
  simp only [det3, dot, cross, neg]; ring

theorem det3_neg_snd (a b c : Vec3) : det3 ⟨a, neg b, c⟩ = -det3 ⟨a, b, c⟩ := by
  simp only [det3, dot, cross, neg]; ring

theorem det3_neg_thd (a b c : Vec3) : det3 ⟨a, b, neg c⟩ = -det3 ⟨a, b, c⟩ := by
  simp only [det3, dot, cross, neg]; ring

theorem det3_swap_snd_thd (a b c : Vec3) : det3 ⟨a, c, b⟩ = -det3 ⟨a, b, c⟩ := by
  simp only [det3, dot, cross]; ring

theorem det3_cyc (a b c : Vec3) : det3 ⟨c, a, b⟩ = det3 ⟨a, b, c⟩ := by
  simp only [det3, dot, cross]; ring

theorem det3_cross_self (a b : Vec3) :
    det3 ⟨a, b, cross a b⟩ = dot (cross a b) (cross a b) := by
  simp only [det3, dot, cross]; ring

/-- The row-assembly step of _quatFromVector, abstracted over the two
already-normalized cross vectors (cross1, cross2).  Same branch
structure as the source, double negation included. -/
def assembleRows (vector c1 c2 : Vec3) (axis : ℕ) (invert : Bool) : Mat3 :=
  if axis = 0 then
    { xRot := if invert then neg (neg vector) else neg vector
      yRot := neg c2
      zRot := c1 }
  else if axis = 1 then
    { xRot := neg c2
      yRot := if invert then neg (neg vector) else neg vector
      zRot := c1 }
  else
    { xRot := if invert then neg c1 else c1
      yRot := neg c2
      zRot := if invert then neg vector else vector }

/-- Orthonormality and the exact determinant of the assembled rows,
for any unit vector `v`, any unit `c1` orthogonal to `v`, and
`c2 = cross v c1`. -/
theorem assemble_core (v c1 : Vec3) (ax : ℕ) (inv : Bool)
    (hv : dot v v = 1) (hc1 : dot c1 c1 = 1) (hvc1 : dot v c1 = 0) :
    orthonormalRows (assembleRows v c1 (cross v c1) ax inv) ∧
      det3 (assembleRows v c1 (cross v c1) ax inv) =
        (if (ax = 0 ∧ inv = true) ∨ (ax = 1 ∧ inv = false) then 1 else -1) := by
  have hc2c2 : dot (cross v c1) (cross v c1) = 1 := by
    rw [cross_lagrange, hv, hc1, hvc1]; ring
  have hvc2 : dot v (cross v c1) = 0 := dot_cross_self_left v c1
  have hc1c2 : dot c1 (cross v c1) = 0 := dot_cross_self_right v c1
  have hdetbase : det3 ⟨v, c1, cross v c1⟩ = 1 := by
    rw [det3_cross_self]; exact hc2c2
  have hc1v : dot c1 v = 0 := by rw [dot_comm]; exact hvc1
  have hc2v : dot (cross v c1) v = 0 := by rw [dot_comm]; exact hvc2
  have hc2c1 : dot (cross v c1) c1 = 0 := by rw [dot_comm]; exact hc1c2
  by_cases ha0 : ax = 0
  · subst ha0
    cases inv
    · have hA : assembleRows v c1 (cross v c1) 0 false = ⟨neg v, neg (cross v c1), c1⟩ := by
        simp [assembleRows]
      rw [hA]
      constructor
      · refine ⟨?_, ?_, ?_, ?_, ?_, ?_⟩ <;>
          simp [orthonormalRows, dot_neg_left, dot_neg_right, hv, hc1, hc2c2,
                hvc1, hvc2, hc1c2, hc1v, hc2v, hc2c1]
      · rw [if_neg (by simp), det3_neg_fst, det3_neg_snd, det3_swap_snd_thd, hdetbase]
        norm_num
    · have hA : assembleRows v c1 (cross v c1) 0 true = ⟨v, neg (cross v c1), c1⟩ := by
        simp [assembleRows, neg_neg_self]
      rw [hA]
      constructor
      · refine ⟨?_, ?_, ?_, ?_, ?_, ?_⟩ <;>
          simp [orthonormalRows, dot_neg_left, dot_neg_right, hv, hc1, hc2c2,
                hvc1, hvc2, hc1c2, hc1v, hc2v, hc2c1]
      · rw [if_pos (by simp), det3_neg_snd, det3_swap_snd_thd, hdetbase]
        norm_num
  · by_cases ha1 : ax = 1
    · subst ha1
      cases inv
      · have hA : assembleRows v c1 (cross v c1) 1 false = ⟨neg (cross v c1), neg v, c1⟩ := by
          simp [assembleRows]
        rw [hA]
        constructor
        · refine ⟨?_, ?_, ?_, ?_, ?_, ?_⟩ <;>
            simp [orthonormalRows, dot_neg_left, dot_neg_right, hv, hc1, hc2c2,
                  hvc1, hvc2, hc1c2, hc1v, hc2v, hc2c1]
        · rw [if_pos (by simp), det3_neg_fst, det3_neg_snd, det3_cyc, hdetbase]
          norm_num
      · have hA : assembleRows v c1 (cross v c1) 1 true = ⟨neg (cross v c1), v, c1⟩ := by
          simp [assembleRows, neg_neg_self]
        rw [hA]
        constructor
        · refine ⟨?_, ?_, ?_, ?_, ?_, ?_⟩ <;>
            simp [orthonormalRows, dot_neg_left, dot_neg_right, hv, hc1, hc2c2,
                  hvc1, hvc2, hc1c2, hc1v, hc2v, hc2c1]
        · rw [if_neg (by simp), det3_neg_fst, det3_cyc, hdetbase]
    · cases inv
      · have hA : assembleRows v c1 (cross v c1) ax false = ⟨c1, neg (cross v c1), v⟩ := by
          simp [assembleRows, ha0, ha1]
        rw [hA]
        constructor
        · refine ⟨?_, ?_, ?_, ?_, ?_, ?_⟩ <;>
            simp [orthonormalRows, dot_neg_left, dot_neg_right, hv, hc1, hc2c2,
                  hvc1, hvc2, hc1c2, hc1v, hc2v, hc2c1]
        · rw [if_neg (by simp [ha0, ha1]), det3_neg_snd, det3_cyc, det3_cyc, hdetbase]
      · have hA : assembleRows v c1 (cross v c1) ax true = ⟨neg c1, neg (cross v c1), neg v⟩ := by
          simp [assembleRows, ha0, ha1]
        rw [hA]
        constructor
        · refine ⟨?_, ?_, ?_, ?_, ?_, ?_⟩ <;>
            simp [orthonormalRows, dot_neg_left, dot_neg_right, hv, hc1, hc2c2,
                  hvc1, hvc2, hc1c2, hc1v, hc2v, hc2c1]
        · rw [if_neg (by simp [ha0, ha1]), det3_neg_fst, det3_neg_snd, det3_neg_thd,
              det3_cyc, det3_cyc, hdetbase]
          norm_num

/-- C3 (amended): for every unit vector V not parallel to the world up
vector and every axis preference and invert setting, the three rows
produced by _quatFromVector are orthonormal, but the frame is
right-handed (determinant +1) exactly when axis = 0 with invert set or
axis = 1 with invert unset; in all other cases (including the default
axis = 2, for either invert setting) it is left-handed (determinant
-1). -/
theorem quatBasis_orthonormal_and_det (v : Vec3) (ax : ℕ) (inv : Bool)
    (hv : dot v v = 1) (hnp : cross v worldUp ≠ ⟨0, 0, 0⟩) :
    orthonormalRows (quatBasis v ax inv) ∧
      det3 (quatBasis v ax inv) =
        (if (ax = 0 ∧ inv = true) ∨ (ax = 1 ∧ inv = false) then 1 else -1) := by
  have hw : dot (cross v worldUp) (cross v worldUp) ≠ 0 :=
    fun h => hnp (eq_zero_of_dot_self_eq_zero h)
  have hc1 : dot (normalize (cross v worldUp)) (normalize (cross v worldUp)) = 1 :=
    normalize_dot_self hw
  have hvc1 : dot v (normalize (cross v worldUp)) = 0 := by
    rw [dot_comm, normalize_dot_left, dot_comm, dot_cross_self_left, mul_zero]
  have hlag : dot (cross v (normalize (cross v worldUp)))
      (cross v (normalize (cross v worldUp))) = 1 := by
    rw [cross_lagrange, hv, hc1, hvc1]; ring
  have h2 : normalize (cross v (normalize (cross v worldUp)))
      = cross v (normalize (cross v worldUp)) := normalize_of_unit hlag
  have hq : quatBasis v ax inv
      = assembleRows v (normalize (cross v worldUp))
          (cross v (normalize (cross v worldUp))) ax inv := by
    simp only [quatBasis, assembleRows, h2]
  rw [hq]
  exact assemble_core v (normalize (cross v worldUp)) ax inv hv hc1 hvc1

/-- Witness for C3 (amended) at V = (0,0,1), axis = 0, invert = true. -/
theorem quatBasis_orthonormal_and_det_witness :
    orthonormalRows (quatBasis ⟨0, 0, 1⟩ 0 true) ∧
      det3 (quatBasis ⟨0, 0, 1⟩ 0 true) =
        (if ((0 : ℕ) = 0 ∧ true = true) ∨ ((0 : ℕ) = 1 ∧ true = false) then 1 else -1) :=
  quatBasis_orthonormal_and_det ⟨0, 0, 1⟩ 0 true
    (by norm_num [Vec3.dot])
    (by norm_num [Vec3.cross, worldUp, Vec3.mk.injEq])

/-- Counterexample to C3 as stated: V = (0,0,1) is a unit vector not
parallel to world up, yet with the default axis preference (z, index 2)
and invert = true the rows built by _quatFromVector have determinant
-1, so the frame is left-handed, not right-handed. -/
theorem quatBasis_claim_counterexample :
    dot ⟨0, 0, 1⟩ ⟨0, 0, 1⟩ = 1 ∧
    cross ⟨0, 0, 1⟩ worldUp ≠ ⟨0, 0, 0⟩ ∧
    det3 (quatBasis ⟨0, 0, 1⟩ 2 true) = -1 ∧
    ¬ rightHanded (quatBasis ⟨0, 0, 1⟩ 2 true) := by
  have hcu : cross ⟨0, 0, 1⟩ worldUp = ⟨-1, 0, 0⟩ := by
    norm_num [Vec3.cross, worldUp, Vec3.mk.injEq]
  have hn1 : Vec3.normalize ⟨-1, 0, 0⟩ = (⟨-1, 0, 0⟩ : Vec3) :=
    normalize_of_unit (by norm_num [Vec3.dot])
  have hc2x : Vec3.cross ⟨0, 0, 1⟩ ⟨-1, 0, 0⟩ = (⟨0, -1, 0⟩ : Vec3) := by
    norm_num [Vec3.cross, Vec3.mk.injEq]
  have hn2 : Vec3.normalize ⟨0, -1, 0⟩ = (⟨0, -1, 0⟩ : Vec3) :=
    normalize_of_unit (by norm_num [Vec3.dot])
  have hq : quatBasis ⟨0, 0, 1⟩ 2 true
      = ⟨⟨1, 0, 0⟩, ⟨0, 1, 0⟩, ⟨0, 0, -1⟩⟩ := by
    simp only [quatBasis, hcu, hn1, hc2x, hn2]
    norm_num [Vec3.neg, Vec3.mk.injEq]
  have hdet : det3 (quatBasis ⟨0, 0, 1⟩ 2 true) = -1 := by
    rw [hq]; norm_num [det3, Vec3.dot, Vec3.cross]
  refine ⟨by norm_num [Vec3.dot], ?_, hdet, ?_⟩
  · rw [hcu]; norm_num [Vec3.mk.injEq]
  · rw [rightHanded, hdet]; norm_num

/-- PlaceReflection._distance: Euclidean distance between two points. -/
noncomputable def distancePts (point1 point2 : Vec3) : ℝ :=
  Real.sqrt ((point1.x - point2.x) ^ 2 + (point1.y - point2.y) ^ 2
    + (point1.z - point2.z) ^ 2)

/-- The tool preferences (_axis, _invert, _translate, _rotate,
_speedSlow, _speedFast). -/
structure Config where
  axis : ℕ
  invert : Bool
  translate : Bool
  rotate : Bool
  speedSlow : ℝ
  speedFast : ℝ

/-- The persistent fields of the PlaceReflection instance.  Scene-node
identities (MDagPath) are modelled as numbers. -/
structure PRState where
  dag : Option ℕ        -- self._dag (object being placed)
  meshDag : Option ℕ    -- self._meshDag (last resolved surface)
  isSet : Bool          -- self._isSet (armed flag)
  reflPoint : Vec3      -- self._reflPoint
  reflVector : Vec3     -- self._reflVector
  dist : ℝ              -- self._dist (base distance)
  moveDist : ℝ          -- self._moveDist

/-- External data consumed by one _place call in place mode: the
results of the Maya scene queries it performs. -/
structure PlaceEnv where
  meshUnderCursor : Option ℕ  -- result of self._getMesh(xPos, yPos)
  worldVector : Vec3          -- ray direction from view.viewToWorld
  hit : Option Vec3           -- closestIntersection hit point, if any
  hitNormal : Vec3            -- meshFn.getClosestNormal at the hit
  objPos : Vec3               -- world translation of the placed object

/-- The partial transform update that cmds.xform applies at the end of
_place: translation is overwritten only when _translate is set,
rotation only when _rotate is set (the quaternion is extracted by Maya
from the rows modelled by quatBasis). -/
structure XformUpdate where
  translation : Option Vec3
  rotation : Option Mat3

/-- The transform components _place writes for the state it has just
computed. -/
noncomputable def xformUpdateOf (cfg : Config) (s : PRState) : XformUpdate :=
  { translation :=
      if cfg.translate then some (add (smul s.moveDist s.reflVector) s.reflPoint)
      else Option.none
    rotation :=
      if cfg.rotate then some (quatBasis s.reflVector cfg.axis cfg.invert)
      else Option.none }

/-- PlaceReflection._place: place mode when the modifier is none,
move mode when the modifier is shift or ctrl and the state is armed,
and a silent no-op otherwise.  Returns the new state together with the
transform update written by cmds.xform (Option.none when the method
returns without writing). -/
noncomputable def place (cfg : Config) (env : PlaceEnv) (s : PRState)
    (startPoint point : ℤ × ℤ) (modifier : Modifier) :
    PRState × Option XformUpdate :=
  match modifier with
  | Modifier.none =>
    match env.meshUnderCursor with
    | Option.none => (s, Option.none)
    | some m =>
      let s1 := { s with meshDag := some m }
      let viewVector := normalize env.worldVector
      match env.hit with
      | Option.none => (s1, Option.none)
      | some hitPt =>
        let reflV := reflectionVector viewVector env.hitNormal
        let d := distancePts hitPt env.objPos
        let s2 := { s1 with reflPoint := hitPt, reflVector := reflV,
                            dist := d, moveDist := d, isSet := true }
        (s2, some (xformUpdateOf cfg s2))
  | _ =>
    if s.isSet then
      let speedVal := if modifier = Modifier.shift then cfg.speedFast else cfg.speedSlow
      let dragDist := ((point.1 - startPoint.1 : ℤ) : ℝ) * speedVal
      let s2 := { s with moveDist := s.dist * (1 + dragDist) }
      (s2, some (xformUpdateOf cfg s2))
    else (s, Option.none)

/-- PlaceReflection._press: resolve the object to place from the
selection; if there is one, copy the last move distance into the
working base distance. -/
def press (selection : Option ℕ) (s : PRState) : PRState :=
  match selection with
  | Option.none => { s with dag := Option.none }
  | some t => { s with dag := some t, dist := s.moveDist }

/-- PlaceReflection._release: clear the per-gesture caches; everything
else (dist, moveDist, isSet, reflection data) survives. -/
def release (s : PRState) : PRState :=
  { s with dag := Option.none, meshDag := Option.none }

/-- Shared helper: the move distance computed by a move-mode drag. -/
theorem place_moveDist_eq (cfg : Config) (env : PlaceEnv) (s : PRState)
    (startPoint point : ℤ × ℤ) (m : Modifier)
    (hm : m ≠ Modifier.none) (hset : s.isSet = true) :
    (place cfg env s startPoint point m).1.moveDist
      = s.dist * (1 + ((point.1 : ℝ) - (startPoint.1 : ℝ))
          * (if m = Modifier.shift then cfg.speedFast else cfg.speedSlow)) := by
  cases m with
  | none => exact absurd rfl hm
  | shift => simp [place, hset]
  | ctrl => simp [place, hset]

/-- C2: in move mode (armed state, modifier shift or ctrl) the new move
distance equals baseDistance * (1 + (currentX - anchorX) * speed), with
the fast speed for shift and the slow speed for ctrl. -/
theorem move_mode_distance (cfg : Config) (env : PlaceEnv) (s : PRState)
    (startPoint point : ℤ × ℤ) (m : Modifier)
    (hm : m = Modifier.shift ∨ m = Modifier.ctrl) (hset : s.isSet = true) :
    (place cfg env s startPoint point m).1.moveDist
      = s.dist * (1 + ((point.1 : ℝ) - (startPoint.1 : ℝ))
          * (if m = Modifier.shift then cfg.speedFast else cfg.speedSlow)) := by
  have hm' : m ≠ Modifier.none := by rcases hm with h | h <;> subst h <;> simp
  exact place_moveDist_eq cfg env s startPoint point m hm' hset

/-- Sample preference values (the tool defaults). -/
def cfg0 : Config := ⟨2, true, true, true, 0.001, 0.01⟩

/-- Sample environment for move-mode calls (no scene data needed). -/
def env0 : PlaceEnv := ⟨Option.none, ⟨0, 0, 1⟩, Option.none, ⟨0, 1, 0⟩, ⟨0, 0, 0⟩⟩

/-- Sample unarmed state. -/
def s0 : PRState := ⟨Option.none, Option.none, false, ⟨0, 0, 0⟩, ⟨0, 0, 0⟩, 0, 0⟩

/-- Sample armed state with base distance 2. -/
def s1 : PRState := ⟨some 1, some 2, true, ⟨1, 0, 0⟩, ⟨0, 0, 1⟩, 2, 2⟩

/-- Witness for C2 at a concrete ctrl drag from x=0 to x=10. -/
theorem move_mode_distance_witness :
    (place cfg0 env0 s1 (0, 0) (10, 0) Modifier.ctrl).1.moveDist
      = s1.dist * (1 + (((10 : ℤ) : ℝ) - ((0 : ℤ) : ℝ))
          * (if Modifier.ctrl = Modifier.shift then cfg0.speedFast else cfg0.speedSlow)) :=
  move_mode_distance cfg0 env0 s1 (0, 0) (10, 0) Modifier.ctrl (Or.inr rfl) rfl

/-- C6: across gestures of one tool session, press copies the last move
distance into the working base distance and release leaves the move
distance and the armed flag unchanged, so a new move-mode gesture
continues from the previous gesture's move distance rather than the
distance stored by the last place operation. -/
theorem press_release_continuity (s : PRState) (t : ℕ) :
    (press (some t) s).dist = s.moveDist ∧
    (release s).moveDist = s.moveDist ∧
    (release s).isSet = s.isSet ∧
    (press (some t) (release s)).dist = s.moveDist ∧
    (press (some t) (release s)).isSet = s.isSet :=
  ⟨rfl, rfl, rfl, rfl, rfl⟩

/-- C7: a move-mode drag update (shift or ctrl) while not armed is a
no-op: the state is returned unchanged and no transform is written. -/
theorem move_before_place_noop (cfg : Config) (env : PlaceEnv) (s : PRState)
    (startPoint point : ℤ × ℤ) (m : Modifier)
    (hm : m = Modifier.shift ∨ m = Modifier.ctrl) (hns : s.isSet = false) :
    place cfg env s startPoint point m = (s, Option.none) := by
  rcases hm with h | h <;> subst h <;> simp [place, hns]

/-- Witness for C7 at a concrete shift drag in the unarmed state. -/
theorem move_before_place_noop_witness :
    place cfg0 env0 s0 (0, 0) (5, 7) Modifier.shift = (s0, Option.none) :=
  move_before_place_noop cfg0 env0 s0 (0, 0) (5, 7) Modifier.shift (Or.inl rfl) rfl

/-- C8: a move-mode drag update in the armed state leaves the stored
reflection point, reflection vector, base distance, armed flag and
cached nodes unchanged; only the move distance changes, and the
transform written (when translation is affected) places the object at
reflPoint + reflVector * newMoveDist along the reflection vector fixed
by the last place-mode evaluation. -/
theorem move_mode_preserves_reflection (cfg : Config) (env : PlaceEnv) (s : PRState)
    (startPoint point : ℤ × ℤ) (m : Modifier)
    (hm : m = Modifier.shift ∨ m = Modifier.ctrl) (hset : s.isSet = true) :
    (place cfg env s startPoint point m).1.reflPoint = s.reflPoint ∧
    (place cfg env s startPoint point m).1.reflVector = s.reflVector ∧
    (place cfg env s startPoint point m).1.dist = s.dist ∧
    (place cfg env s startPoint point m).1.isSet = s.isSet ∧
    (place cfg env s startPoint point m).1.meshDag = s.meshDag ∧
    (place cfg env s startPoint point m).1.dag = s.dag ∧
    (cfg.translate = true →
      ∃ u, (place cfg env s startPoint point m).2 = some u ∧
        u.translation = some (add (smul ((place cfg env s startPoint point m).1.moveDist)
          s.reflVector) s.reflPoint)) := by
  rcases hm with h | h <;> subst h
  · exact ⟨by simp [place, hset], by simp [place, hset], by simp [place, hset],
           by simp [place, hset], by simp [place, hset], by simp [place, hset],
           fun ht =>
             ⟨xformUpdateOf cfg (place cfg env s startPoint point Modifier.shift).1,
              by simp [place, hset], by simp [place, hset, xformUpdateOf, ht]⟩⟩
  · exact ⟨by simp [place, hset], by simp [place, hset], by simp [place, hset],
           by simp [place, hset], by simp [place, hset], by simp [place, hset],
           fun ht =>
             ⟨xformUpdateOf cfg (place cfg env s startPoint point Modifier.ctrl).1,
              by simp [place, hset], by simp [place, hset, xformUpdateOf, ht]⟩⟩

/-- Witness for C8 at a concrete shift drag in the armed state. -/
theorem move_mode_preserves_reflection_witness :
    (place cfg0 env0 s1 (0, 0) (4, 3) Modifier.shift).1.reflPoint = s1.reflPoint ∧
    (place cfg0 env0 s1 (0, 0) (4, 3) Modifier.shift).1.reflVector = s1.reflVector ∧
    (place cfg0 env0 s1 (0, 0) (4, 3) Modifier.shift).1.dist = s1.dist ∧
    (place cfg0 env0 s1 (0, 0) (4, 3) Modifier.shift).1.isSet = s1.isSet ∧
    (place cfg0 env0 s1 (0, 0) (4, 3) Modifier.shift).1.meshDag = s1.meshDag ∧
    (place cfg0 env0 s1 (0, 0) (4, 3) Modifier.shift).1.dag = s1.dag ∧
    (cfg0.translate = true →
      ∃ u, (place cfg0 env0 s1 (0, 0) (4, 3) Modifier.shift).2 = some u ∧
        u.translation = some (add (smul ((place cfg0 env0 s1 (0, 0) (4, 3) Modifier.shift).1.moveDist)
          s1.reflVector) s1.reflPoint)) :=
  move_mode_preserves_reflection cfg0 env0 s1 (0, 0) (4, 3) Modifier.shift (Or.inl rfl) rfl

/-- C9: with a fixed anchor, an armed state with positive base
distance, and a positive speed for the active modifier, the move-mode
move distance is strictly increasing in the drag point's x
coordinate. -/
theorem move_mode_strict_mono (cfg : Config) (env : PlaceEnv) (s : PRState)
    (a : ℤ × ℤ) (y1 y2 : ℤ) (x1 x2 : ℤ) (m : Modifier)
    (hm : m = Modifier.shift ∨ m = Modifier.ctrl) (hset : s.isSet = true)
    (hd : 0 < s.dist)
    (hsp : 0 < (if m = Modifier.shift then cfg.speedFast else cfg.speedSlow))
    (hx : x1 < x2) :
    (place cfg env s a (x1, y1) m).1.moveDist
      < (place cfg env s a (x2, y2) m).1.moveDist := by
  have hm' : m ≠ Modifier.none := by rcases hm with h | h <;> subst h <;> simp
  rw [place_moveDist_eq cfg env s a (x1, y1) m hm' hset,
      place_moveDist_eq cfg env s a (x2, y2) m hm' hset]
  have hxr : (x1 : ℝ) < (x2 : ℝ) := by exact_mod_cast hx
  have hkey : 0 < s.dist * ((if m = Modifier.shift then cfg.speedFast else cfg.speedSlow)
      * ((x2 : ℝ) - (x1 : ℝ))) :=
    mul_pos hd (mul_pos hsp (sub_pos.mpr hxr))
  nlinarith [hkey]

/-- Witness for C9 at a concrete shift drag: x = 3 versus x = 5. -/
theorem move_mode_strict_mono_witness :
    (place cfg0 env0 s1 (0, 0) (3, 0) Modifier.shift).1.moveDist
      < (place cfg0 env0 s1 (0, 0) (5, 0) Modifier.shift).1.moveDist :=
  move_mode_strict_mono cfg0 env0 s1 (0, 0) 0 0 3 5 Modifier.shift (Or.inl rfl) rfl
    (by norm_num [s1]) (by norm_num [cfg0]) (by norm_num)

end PlaceReflection

namespace QuickZoom

/-- The camera film fit modes relevant to _isHorizontal
(om2.MFnCamera.kFillFilmFit etc.). -/
inductive FilmFit where
  | fill
  | horizontal
  | vertical
  | overscanFit
deriving DecidableEq

/-- The camera attributes read and written by the quick-zoom tool.
QuickZoom only uses rational field operations, so the scalars are
modelled as rationals. -/
structure Camera where
  ortho : Bool                  -- isOrtho()
  panZoomEnabled : Bool
  horizontalPan : ℚ
  verticalPan : ℚ
  zoom : ℚ
  overscan : ℚ
  horizontalFilmAperture : ℚ
  verticalFilmAperture : ℚ
  aspectRatio : ℚ
  filmFit : FilmFit
deriving DecidableEq

/-- The instance fields of QuickZoom: cached viewport size, cached
camera aspect ratio and pans, and the stored drag points. -/
structure QZState where
  width : ℚ
  height : ℚ
  ratio : ℚ
  hPan : ℚ
  vPan : ℚ
  startX : ℤ
  startY : ℤ
  endX : ℤ
  endY : ℤ
deriving DecidableEq

/-- One cmds.setAttr call on a camera attribute. -/
inductive CamWrite where
  | panZoomEnabled (value : Bool)
  | horizontalPan (value : ℚ)
  | verticalPan (value : ℚ)
  | zoom (value : ℚ)
deriving DecidableEq

/-- QuickZoom._isHorizontal: the two successive if statements of the
source, starting from True. -/
def isHorizontal (s : QZState) (cam : Camera) : Bool :=
  let horizontal := true
  let portRatio := s.width / s.height
  let horizontal :=
    if cam.filmFit = FilmFit.fill ∧ portRatio < s.ratio then false else horizontal
  let horizontal :=
    if cam.filmFit = FilmFit.vertical then false else horizontal
  horizontal

/-- QuickZoom._getZoom: drag extent (x extent for a horizontal view, y
extent with start and end reversed otherwise), made nonnegative, over
the cached viewport width or height. -/
def getZoom (s : QZState) (cam : Camera) : ℚ :=
  let startV : ℤ := if isHorizontal s cam then s.startX else s.endY
  let endV : ℤ := if isHorizontal s cam then s.endX else s.startY
  let size : ℤ := if endV > startV then endV - startV else startV - endV
  if isHorizontal s cam then (size : ℚ) / s.width else (size : ℚ) / s.height

/-- QuickZoom._zoomView: the four setAttr calls performed at release,
in source order. -/
def zoomView (s : QZState) (cam : Camera) : List CamWrite :=
  let overscan := cam.overscan
  let apertureX := cam.horizontalFilmAperture
  let apertureY := cam.verticalFilmAperture
  let horizontal := isHorizontal s cam
  let portWidth := if horizontal then s.width else s.height * s.ratio
  let portHeight := if horizontal then s.width / s.ratio else s.height
  let viewCenterX := portWidth / 2
  let viewCenterY := portHeight / 2
  let dragHalfX := ((s.endX - s.startX : ℤ) : ℚ) / 2
  let dragHalfY := ((s.endY - s.startY : ℤ) : ℚ) / 2
  let regionCenterX :=
    if horizontal then dragHalfX + (s.startX : ℚ)
    else dragHalfX + (s.startX : ℚ) - ((s.width - portWidth) / 2)
  let regionCenterY :=
    if horizontal then dragHalfY + (s.startY : ℚ) - ((s.height - portHeight) / 2)
    else dragHalfY + (s.startY : ℚ)
  let deltaCenterX := regionCenterX - viewCenterX
  let deltaCenterY := regionCenterY - viewCenterY
  let offsetX := deltaCenterX / portWidth * overscan
  let offsetY := deltaCenterY / portHeight * overscan
  let panX := apertureX * offsetX
  let panY := apertureY * offsetY
  let zoomRaw := getZoom s cam * overscan
  let zoomVal := if zoomRaw ≤ 0 then 0.01 else zoomRaw
  [CamWrite.panZoomEnabled true, CamWrite.horizontalPan panX,
   CamWrite.verticalPan panY, CamWrite.zoom zoomVal]

/-- QuickZoom._pan: the two pan setAttr calls of a shift drag, using
the pans cached at press and the camera's live zoom. -/
def pan (s : QZState) (cam : Camera) : List CamWrite :=
  let deltaX := s.startX - s.endX
  let deltaY := s.startY - s.endY
  let hPan := s.hPan + (deltaX : ℚ) * 0.00081 * cam.zoom
  let vPan := s.vPan + (deltaY : ℚ) * 0.00081 * cam.zoom
  [CamWrite.horizontalPan hPan, CamWrite.verticalPan vPan]

/-- QuickZoom.togglePanZoom: invert the camera's panZoomEnabled. -/
def togglePanZoom (cam : Camera) : List CamWrite :=
  [CamWrite.panZoomEnabled (!cam.panZoomEnabled)]

/-- QuickZoom._press: exit immediately for an orthographic camera;
toggle pan/zoom on ctrl; otherwise cache the camera settings and the
viewport size. -/
def press (modifier : Modifier) (cam : Camera) (portWidth portHeight : ℚ)
    (s : QZState) : QZState × List CamWrite :=
  if cam.ortho then (s, [])
  else if modifier = Modifier.ctrl then (s, togglePanZoom cam)
  else
    ({ s with
        ratio := cam.aspectRatio
        hPan := cam.horizontalPan
        vPan := cam.verticalPan
        width := portWidth
        height := portHeight }, [])

/-- QuickZoom._drag: store the anchor and drag points, then pan when
shift is held and the camera's panZoomEnabled flag is set.  Note that
the source performs no orthographic check here. -/
def drag (modifier : Modifier) (anchorPoint dragPoint : ℤ × ℤ) (cam : Camera)
    (s : QZState) : QZState × List CamWrite :=
  let s1 : QZState :=
    { s with
        startX := anchorPoint.1
        startY := anchorPoint.2
        endX := dragPoint.1
        endY := dragPoint.2 }
  if modifier = Modifier.shift ∧ cam.panZoomEnabled = true then (s1, pan s1 cam)
  else (s1, [])

/-- QuickZoom._release: perform the zoom when no modifier is held.
Note that the source performs no orthographic check here either. -/
def release (modifier : Modifier) (cam : Camera) (s : QZState) :
    QZState × List CamWrite :=
  if modifier = Modifier.none then (s, zoomView s cam) else (s, [])

/-- C5: the zoom value written at release is strictly positive for
every dragged region and overscan value, and equals the 0.01 floor for
a zero-size drag rectangle. -/
theorem zoom_write_positive (s : QZState) (cam : Camera) :
    ∃ panX panY z,
      zoomView s cam = [CamWrite.panZoomEnabled true, CamWrite.horizontalPan panX,
        CamWrite.verticalPan panY, CamWrite.zoom z] ∧
      0 < z ∧
      (s.startX = s.endX → s.startY = s.endY → z = 0.01) := by
  refine ⟨_, _, _, rfl, ?_, ?_⟩
  · by_cases h : getZoom s cam * cam.overscan ≤ 0
    · rw [if_pos h]; norm_num
    · rw [if_neg h]; exact lt_of_not_le h
  · intro hx hy
    have hz : getZoom s cam = 0 := by
      cases hH : isHorizontal s cam <;> simp [getZoom, hH, hx, hy]
    simp [hz]

/-- Sample perspective camera (panZoomEnabled off). -/
def camP : Camera := ⟨false, false, 0, 0, 1, 1, 1, 1, 2, FilmFit.horizontal⟩

/-- Sample orthographic camera. -/
def camO : Camera := ⟨true, true, 0, 0, 1, 1, 1, 1, 2, FilmFit.horizontal⟩

/-- Sample tool state with a cached 100 x 50 viewport, aspect ratio 2
and a zero-size drag rectangle. -/
def sQ : QZState := ⟨100, 50, 2, 0, 0, 0, 0, 0, 0⟩

/-- Witness for C5 at the sample state and camera. -/
theorem zoom_write_positive_witness :
    ∃ panX panY z,
      zoomView sQ camP = [CamWrite.panZoomEnabled true, CamWrite.horizontalPan panX,
        CamWrite.verticalPan panY, CamWrite.zoom z] ∧
      0 < z ∧
      (sQ.startX = sQ.endX → sQ.startY = sQ.endY → z = 0.01) :=
  zoom_write_positive sQ camP

/-- C4 evaluated at a failing input: with an orthographic camera the
press is indeed a no-op (nothing cached, nothing written), but a plain
release still runs _zoomView and writes panZoomEnabled, both pans and
the zoom to the orthographic camera, because only _press checks
isOrtho. -/
theorem ortho_gesture_writes_camera :
    (press Modifier.none camO 100 50 sQ).2 = [] ∧
    (press Modifier.none camO 100 50 sQ).1 = sQ ∧
    (release Modifier.none camO sQ).2
      = [CamWrite.panZoomEnabled true, CamWrite.horizontalPan (-(1/2)),
         CamWrite.verticalPan (-(1/2)), CamWrite.zoom (1/100)] := by
  refine ⟨rfl, rfl, ?_⟩
  norm_num [release, zoomView, getZoom, isHorizontal, camO, sQ]

/-- C10: a shift drag while the camera's panZoomEnabled flag is false
writes no camera attribute; only the four stored drag points of the
tool state are updated. -/
theorem shift_drag_requires_panZoom (s : QZState) (cam : Camera)
    (anchorPoint dragPoint : ℤ × ℤ) (hpz : cam.panZoomEnabled = false) :
    (drag Modifier.shift anchorPoint dragPoint cam s).2 = [] ∧
    (drag Modifier.shift anchorPoint dragPoint cam s).1
      = { s with
            startX := anchorPoint.1
            startY := anchorPoint.2
            endX := dragPoint.1
            endY := dragPoint.2 } := by
  constructor <;> simp [drag, hpz]

/-- Witness for C10 at a concrete shift drag. -/
theorem shift_drag_requires_panZoom_witness :
    (drag Modifier.shift (1, 2) (30, 40) camP sQ).2 = [] ∧
    (drag Modifier.shift (1, 2) (30, 40) camP sQ).1
      = { sQ with
            startX := 1
            startY := 2
            endX := 30
            endY := 40 } :=
  shift_drag_requires_panZoom sQ camP (1, 2) (30, 40) rfl

end QuickZoom
